import Mathlib

/-!
Verification of the car-detection pipeline in `find_cars.py`.

The detection core is embedded shallowly:
* images / heatmaps are grids `List (List ℚ)` (numpy float arrays modelled
  over ℚ, row-major, indexed heatmap[y][x]);
* a `Rectangle` is a pair of (x, y) vertices, as in the source;
* the numpy slice-assignment idioms (`heatmap[a:b, c:d] += s`,
  `h[h > m] = m`, `h[h < t] = 0`) become per-cell updates;
* Python `int()` truncation, floor division `//` and list slicing
  `lst[-k:]` are modelled exactly, including their corner cases;
* external collaborators (classifier, HOG feature builder, scipy
  labelling, cv2 drawing) are inputs/oracles of the embedded functions,
  mirroring the repository boundary.
-/

namespace FindCars

/-- A pair of (x, y) vertices defining a rectangle, as in the source
(`Rectangle = Tuple[Tuple[int, int], Tuple[int, int]]`). -/
abbrev Rect : Type := (ℕ × ℕ) × (ℕ × ℕ)

/-- A heatmap: a row-major grid of rationals (`np.zeros(img_shape[:2])`
and friends). -/
abbrev HeatGrid : Type := List (List ℚ)

/-- Cell lookup `g[y][x]`, defaulting to 0 out of bounds. -/
def getQ (g : HeatGrid) (y x : ℕ) : ℚ :=
  (((g.get? y).getD []).get? x).getD 0

/-- Cell lookup in an integer grid (label arrays), defaulting to 0. -/
def getN (g : List (List ℕ)) (y x : ℕ) : ℕ :=
  (((g.get? y).getD []).get? x).getD 0

/-- Does the rectangle `((x0, y0), (x1, y1))` cover cell `(y, x)`?  This is
the cell set touched by the slice `heatmap[y0:y1, x0:x1]` in `gen_heatmap`:
the second vertex is exclusive. -/
def coversB (r : Rect) (y x : ℕ) : Bool :=
  decide (r.1.2 ≤ y) && decide (y < r.2.2) && decide (r.1.1 ≤ x) && decide (x < r.2.1)

/-- One row of the slice-add `heatmap[y0:y1, x0:x1] += score`, cell by
cell starting at column `x`. -/
def addRectRow (r : Rect) (s : ℚ) (y : ℕ) : ℕ → List ℚ → List ℚ
  | _, [] => []
  | x, v :: vs => (if coversB r y x then v + s else v) :: addRectRow r s y (x + 1) vs

/-- The slice-add `heatmap[y0:y1, x0:x1] += score` over the rows starting
at row `y`. -/
def addRectRows (r : Rect) (s : ℚ) : ℕ → HeatGrid → HeatGrid
  | _, [] => []
  | y, row :: rows => addRectRow r s y 0 row :: addRectRows r s (y + 1) rows

/-- `heatmap[rec[0][1]:rec[1][1], rec[0][0]:rec[1][0]] += score`. -/
def addRect (g : HeatGrid) (r : Rect) (s : ℚ) : HeatGrid :=
  addRectRows r s 0 g

/-- `np.zeros(img_shape[:2])`. -/
def zerosGrid (h w : ℕ) : HeatGrid :=
  List.replicate h (List.replicate w 0)

/-- `gen_heatmap`: start from a zero grid of the image shape and add each
rectangle's score onto the cells of its slice. -/
def gen_heatmap (pairs : List (Rect × ℚ)) (h w : ℕ) : HeatGrid :=
  pairs.foldl (fun g p => addRect g p.1 p.2) (zerosGrid h w)

/-- Per-frame cap `current_heatmap[current_heatmap > max_frame_heat] = max_frame_heat`. -/
def capGrid (g : HeatGrid) (m : ℚ) : HeatGrid :=
  g.map (List.map (fun v => if m < v then m else v))

/-- Low-threshold zeroing `heatmap_thresh[heatmap < heat_thresh_low] = 0`
applied to a copy of the fused heatmap. -/
def threshGrid (g : HeatGrid) (low : ℚ) : HeatGrid :=
  g.map (List.map (fun v => if v < low then 0 else v))

/-- Sum of the scores of the rectangles of `pairs` covering cell `(y, x)`. -/
def coverSum (pairs : List (Rect × ℚ)) (y x : ℕ) : ℚ :=
  ((pairs.filter (fun p => coversB p.1 y x)).map Prod.snd).sum

/-- Shape predicate: `g` is an `h × w` grid. -/
def ShapeOk (g : HeatGrid) (h w : ℕ) : Prop :=
  g.length = h ∧ ∀ y, y < h → (((g.get? y).getD []).length = w)

/-- Two scored rectangles have no common cell. -/
def DisjointRects (p q : Rect × ℚ) : Prop :=
  ∀ y x : ℕ, ¬(coversB p.1 y x = true ∧ coversB q.1 y x = true)

/-- Python `int()` on a rational: truncation toward zero. -/
def pyInt (q : ℚ) : ℤ :=
  if 0 ≤ q then ⌊q⌋ else ⌈q⌉

/-- Python list slicing `lst[i:]`, including negative indices:
`lst[-k:]` keeps the last `k` elements when `k ≥ 1` and the whole list
when `k = 0`. -/
def pySliceFrom {α : Type} (l : List α) (i : ℤ) : List α :=
  if i < 0 then l.drop ((l.length + i).toNat) else l.drop i.toNat

/-- The last `k` elements of a list (all of it when it is shorter). -/
def takeLast {α : Type} (k : ℕ) (l : List α) : List α :=
  l.drop (l.length - k)

/-- One streaming-mode history update of `find_cars` (append the frame's
capped heatmap, then `nlast_heatmaps = nlast_heatmaps[-heatmap_history:]`
whenever the length exceeds `heatmap_history`). -/
def histStep (cap : ℤ) (hist : List HeatGrid) (x : HeatGrid) : List HeatGrid :=
  let appended := hist ++ [x]
  if (appended.length : ℤ) > cap then pySliceFrom appended (-cap) else appended

/-- Elementwise sum of two heatmaps (numpy array addition). -/
def addGrids (a b : HeatGrid) : HeatGrid :=
  List.zipWith (List.zipWith (· + ·)) a b

/-- `sum(self.nlast_heatmaps)` for `h × w` heatmaps. -/
def sumGrids (h w : ℕ) (l : List HeatGrid) : HeatGrid :=
  l.foldl addGrids (zerosGrid h w)

/-- The state a `CarFinder` instance carries between frames.  The
classifier and feature-vector builder are external collaborators and
appear as oracles of the functions that use them. -/
structure CFState where
  searchSettings : List (ℤ × ℤ × ℚ × ℚ)
  xRange : ℤ × ℤ
  maxFrameHeat : ℚ
  threshLow : ℚ
  threshHigh : ℚ
  heatmapHistory : ℤ
  nlastHeatmaps : List HeatGrid
  viz : String

/-- `CarFinder.__init__`: stores the tuning scalars as given and
hard-codes the search tuples, the x-range and the per-frame heat cap
`thresh_high * 1.5`.  The body performs no validation of any kind. -/
def carFinderInit (visualization : String) (history : ℤ) (threshLow threshHigh : ℚ) : CFState :=
  { searchSettings := [(380, 500, 1, 6/8), (380, 550, 13/10, 5/8), (380, 600, 11/5, 6/8)]
    xRange := (0, 1280)
    maxFrameHeat := threshHigh * (3/2)
    threshLow := threshLow
    threshHigh := threshHigh
    heatmapHistory := history
    nlastHeatmaps := []
    viz := visualization }

/-- Lines 120-132 of `find_cars`: history update, fusion, and the two
effective thresholds `len(self.nlast_heatmaps) * thresh_low/high`.
Returns (new history, fused heatmap, low threshold, high threshold). -/
def fuseStep (s : CFState) (current : HeatGrid) (single : Bool) (h w : ℕ) :
    List HeatGrid × HeatGrid × ℚ × ℚ :=
  let hist := if single then s.nlastHeatmaps else histStep s.heatmapHistory s.nlastHeatmaps current
  let fused := if single then current else sumGrids h w hist
  (hist, fused, (hist.length : ℚ) * s.threshLow, (hist.length : ℚ) * s.threshHigh)

/-- The pixels `(y, x)` carrying label `id`, in row-major order
(`(labels[0] == label_id).nonzero()`). -/
def labelPixels (lab : List (List ℕ)) (id : ℕ) : List (ℕ × ℕ) :=
  (lab.enum.map (fun yr =>
    yr.2.enum.filterMap (fun xv => if xv.2 = id then some (yr.1, xv.1) else none))).join

/-- Bounding box `((min x, min y), (max x, max y))` of a pixel list. -/
def bboxOfPixels (pix : List (ℕ × ℕ)) : Rect :=
  (((pix.map Prod.snd).minimum?.getD 0, (pix.map Prod.fst).minimum?.getD 0),
   ((pix.map Prod.snd).maximum?.getD 0, (pix.map Prod.fst).maximum?.getD 0))

/-- Row index `(bbox[0][1] + bbox[1][1]) // 2` of the core check. -/
def midY (b : Rect) : ℕ := (b.1.2 + b.2.2) / 2

/-- Column index `(bbox[0][0] + bbox[1][0]) // 2` of the core check. -/
def midX (b : Rect) : ℕ := (b.1.1 + b.2.1) / 2

/-- The loop of `hot_label_regions` over the given label ids.  A label id
with no pixels makes `np.min` of an empty array raise, modelled as
`none`. -/
def hotLabelLoop (lab : List (List ℕ)) (heat : HeatGrid) (thr : ℚ) :
    List ℕ → Option (List Rect)
  | [] => some []
  | id :: ids =>
    if labelPixels lab id = [] then none
    else
      let b := bboxOfPixels (labelPixels lab id)
      match hotLabelLoop lab heat thr ids with
      | none => none
      | some bs => if thr ≤ getQ heat (midY b) (midX b) then some (b :: bs) else some bs

/-- `hot_label_regions(labels, heatmap, threshold)`: one bounding box per
label in `1..n` whose heatmap value at the integer-truncated midpoint of
the box clears the threshold. -/
def hot_label_regions (lab : List (List ℕ)) (n : ℕ) (heat : HeatGrid) (thr : ℚ) :
    Option (List Rect) :=
  hotLabelLoop lab heat thr (List.range' 1 n)

/-- Lines 133-138 of `find_cars`: zero the fused heatmap below the low
threshold, then run `hot_label_regions` on the THRESHOLDED heatmap with
the high threshold (the labelling of the thresholded heatmap is the
`lab`, `n` input). -/
def regionStep (fused : HeatGrid) (lowT highT : ℚ) (lab : List (List ℕ)) (n : ℕ) :
    Option (List Rect) :=
  hot_label_regions lab n (threshGrid fused lowT) highT

/-- The returned visualization image, as the data it is built from: the
plain mode draws the detection boxes on a copy of the frame; the
`windows` mode additionally composites the clamped fused heatmap and
outlines every candidate window. -/
inductive VizImg where
  | plain : List Rect → VizImg
  | windowsDiag : List Rect → HeatGrid → ℚ → List Rect → VizImg

/-- `CarFinder.find_cars` on one frame.  The concatenated scored windows
of the per-tuple window searches enter as `wins` (they are produced by
the external classifier and feature builder and do not depend on any
state this function changes), and the scipy connected-component
labelling enters as the oracle `labelOf`. -/
def findCarsCore (s : CFState) (wins : List (Rect × ℚ)) (h w : ℕ) (single : Bool)
    (labelOf : HeatGrid → List (List ℕ) × ℕ) :
    Option (List HeatGrid × HeatGrid × ℚ × List Rect) :=
  let current := capGrid (gen_heatmap wins h w) s.maxFrameHeat
  let fz := fuseStep s current single h w
  let threshed := threshGrid fz.2.1 fz.2.2.1
  let lb := labelOf threshed
  match hot_label_regions lb.1 lb.2 threshed fz.2.2.2 with
  | none => none
  | some bboxes => some (fz.1, fz.2.1, fz.2.2.2, bboxes)

def find_cars (s : CFState) (wins : List (Rect × ℚ)) (h w : ℕ) (single : Bool)
    (labelOf : HeatGrid → List (List ℕ) × ℕ) : Option (CFState × List Rect × VizImg) :=
  match findCarsCore s wins h w single labelOf with
  | none => none
  | some r =>
    let img := if s.viz = "windows"
      then VizImg.windowsDiag r.2.2.2 r.2.1 r.2.2.1 (wins.map Prod.fst)
      else VizImg.plain r.2.2.2
    some ({ s with nlastHeatmaps := r.1 }, r.2.2.2, img)

/-- `window_size // pixels_per_cell_edge`. -/
def cellsPerWindowEdge (windowSize pixelsPerCellEdge : ℕ) : ℕ :=
  windowSize / pixelsPerCellEdge

/-- `cells_per_window_edge - cells_per_block_edge + 1`. -/
def blocksPerWindowEdge (cpwe cellsPerBlockEdge : ℤ) : ℤ :=
  cpwe - cellsPerBlockEdge + 1

/-- `int((1 - window_overlap) * cells_per_window_edge)`: the block step
used by the sliding-window loops of `window_search_cars`. -/
def cellsPerWindowStep (overlap : ℚ) (cpwe : ℤ) : ℤ :=
  pyInt ((1 - overlap) * (cpwe : ℚ))

/-- `range((nblocks - blocks_per_window_edge) // cells_per_window_step)`:
the number of loop iterations along one axis; Python floor division by a
zero step raises `ZeroDivisionError`, modelled as `none`. -/
def stepRangeLen (nblocks bpwe step : ℤ) : Option ℤ :=
  if step = 0 then none else some (Int.fdiv (nblocks - bpwe) step)

/-- Modelled from the spec: the spec's window-step rule
`step = round((1 − overlap) × blocks-per-window)`, with a step that
rounds to 0 treated as a request for step = 1 block.  Stated only for
comparison with `cellsPerWindowStep`, the step the source computes. -/
def specWindowStep (overlap : ℚ) (blocksPerWindow : ℤ) : ℤ :=
  max 1 (round ((1 - overlap) * (blocksPerWindow : ℚ)))

/-- Modelled from the spec: the spec's notion of a well-formed
configuration (history capacity ≥ 1, nonempty search-tuple list, positive
scales, overlaps in [0, 1)).  Stated only for comparison with
`carFinderInit`, which performs no such check. -/
def specConfigOk (history : ℤ) (settings : List (ℤ × ℤ × ℚ × ℚ)) : Bool :=
  decide (1 ≤ history) && !settings.isEmpty &&
    settings.all (fun t =>
      decide (0 < t.2.2.1) && decide (0 ≤ t.2.2.2) && decide (t.2.2.2 < 1))

/-- A decidable consistency check tying a label grid to a heatmap: same
`h × w` shape, labels are nonzero exactly on nonzero heatmap cells and
never exceed `n`, 4-adjacent nonzero cells carry equal labels, and every
label in `1..n` occurs.  Every correct connected-component labelling
(scipy's default 4-connectivity) satisfies it. -/
def consistentLabeling (heat : HeatGrid) (lab : List (List ℕ)) (n h w : ℕ) : Bool :=
  decide (lab.length = h) && lab.all (fun row => decide (row.length = w)) &&
  decide (heat.length = h) && heat.all (fun row => decide (row.length = w)) &&
  ((List.range h).all fun y => (List.range w).all fun x =>
    (decide (getQ heat y x ≠ 0) = decide (getN lab y x ≠ 0)) &&
    decide (getN lab y x ≤ n)) &&
  ((List.range h).all fun y => (List.range w).all fun x =>
    (!(decide (x + 1 < w) && decide (getN lab y x ≠ 0) && decide (getN lab y (x + 1) ≠ 0)) ||
      decide (getN lab y x = getN lab y (x + 1))) &&
    (!(decide (y + 1 < h) && decide (getN lab y x ≠ 0) && decide (getN lab (y + 1) x ≠ 0)) ||
      decide (getN lab y x = getN lab (y + 1) x))) &&
  ((List.range' 1 n).all fun id =>
    (List.range h).any fun y => (List.range w).any fun x => decide (getN lab y x = id))

/-- A numpy buffer, as the 2D array of values it holds. -/
def BufData : Type := ℕ → ℕ → ℚ

/-- One array operation of the imperative code: it writes buffer `dst`
with a value computed from the current buffers. -/
structure MOp where
  dst : ℕ
  f : (ℕ → BufData) → BufData

/-- Run a sequence of array operations over the buffer store. -/
def execOps (σ : ℕ → BufData) (ops : List MOp) : ℕ → BufData :=
  ops.foldl (fun σ op => Function.update σ op.dst (op.f σ)) σ

/-- The buffer trace of one `window_search_cars` call whose fresh buffers
start at id `b`, with the input frame in buffer 0: the crop is a copy of
the frame (line 171), the optional resize, the HOG tensor, and per
window a ravelled HOG slice and a resized pixel patch — all writes go to
fresh buffers, the frame is only read.  The pixel semantics of the
external cv2/skimage calls enter as the function parameters. -/
def wsOps (b : ℕ) (y0 x0 : ℕ) (doResize : Bool) (nw : ℕ)
    (fresize : BufData → BufData) (fhog : BufData → BufData)
    (fslice : ℕ → BufData → BufData) (fpatch : ℕ → BufData → BufData)
    (ffeat : (ℕ → BufData) → BufData) (fscore : BufData → BufData) : List MOp :=
  let srcId := if doResize then b + 1 else b
  [⟨b, fun σ => fun y x => σ 0 (y + y0) (x + x0)⟩] ++
  (if doResize then [⟨b + 1, fun σ => fresize (σ b)⟩] else []) ++
  [⟨b + 2, fun σ => fhog (σ srcId)⟩] ++
  ((List.range nw).bind fun i =>
    [⟨b + 3 + 2 * i, fun σ => fslice i (σ (b + 2))⟩,
     ⟨b + 4 + 2 * i, fun σ => fpatch i (σ srcId)⟩]) ++
  [⟨b + 3 + 2 * nw, fun σ => ffeat σ⟩,
   ⟨b + 4 + 2 * nw, fun σ => fscore (σ (b + 3 + 2 * nw))⟩]

/-- The buffer trace of one `find_cars` call.  Buffer 0 holds the
caller's frame; `histIds` are the buffers of the previously retained
heatmaps (they are only summed, i.e. read); every allocation (`np.copy`,
`np.zeros`, resizes, the label array, the diagnostic overlay buffers)
gets a fresh id ≥ 1, and every in-place write (`+=` rasterization, the
heat cap, the low-threshold mask, `cv2.rectangle`, `cv2.normalize`)
targets one of those fresh buffers.  External pixel semantics
(`cv2.resize`, HOG, `cv2.rectangle`, `cv2.normalize`, `cv2.merge`,
`cv2.addWeighted`, `scipy.label`) enter as function parameters. -/
def findCarsOps (nw1 nw2 nw3 : ℕ) (histIds : List ℕ) (wins : List (Rect × ℚ))
    (bboxes : List Rect) (single vizWindows : Bool) (m lowT highT : ℚ)
    (fresize : BufData → BufData) (fhog : BufData → BufData)
    (fslice : ℕ → BufData → BufData) (fpatch : ℕ → BufData → BufData)
    (ffeat : (ℕ → BufData) → BufData) (fscore : BufData → BufData)
    (flabel : BufData → BufData) (fdrawBox : Rect → BufData → BufData)
    (fnorm : BufData → BufData) (fmerge : BufData → BufData)
    (faddw : BufData → BufData → BufData) : List MOp :=
  let b1 := 1
  let b2 := b1 + 5 + 2 * nw1
  let b3 := b2 + 5 + 2 * nw2
  let b4 := b3 + 5 + 2 * nw3
  let heatId := b4
  let sumId := b4 + 1
  let fusedId := if single then heatId else sumId
  let threshId := b4 + 2
  let labId := b4 + 3
  let retId := b4 + 4
  let limtdId := b4 + 5
  let mergeId := b4 + 6
  let owId := b4 + 7
  let dcopyId := b4 + 8
  wsOps b1 380 0 false nw1 fresize fhog fslice fpatch ffeat fscore ++
  wsOps b2 380 0 true nw2 fresize fhog fslice fpatch ffeat fscore ++
  wsOps b3 380 0 true nw3 fresize fhog fslice fpatch ffeat fscore ++
  [⟨heatId, fun _ => fun _ _ => 0⟩] ++
  (wins.map fun p =>
    ⟨heatId, fun σ => fun y x => σ heatId y x + if coversB p.1 y x then p.2 else 0⟩) ++
  [⟨heatId, fun σ => fun y x => if m < σ heatId y x then m else σ heatId y x⟩] ++
  (if single then [] else
    [⟨sumId, fun σ => fun y x => (histIds.map (fun i => σ i y x)).sum⟩]) ++
  [⟨threshId, fun σ => σ fusedId⟩,
   ⟨threshId, fun σ => fun y x => if σ fusedId y x < lowT then 0 else σ threshId y x⟩,
   ⟨labId, fun σ => flabel (σ threshId)⟩,
   ⟨retId, fun σ => σ 0⟩] ++
  (bboxes.map fun bb => ⟨retId, fun σ => fdrawBox bb (σ retId)⟩) ++
  (if vizWindows then
    [⟨limtdId, fun σ => σ fusedId⟩,
     ⟨limtdId, fun σ => fun y x => if highT < σ fusedId y x then highT else σ limtdId y x⟩,
     ⟨limtdId, fun σ => fnorm (σ limtdId)⟩,
     ⟨mergeId, fun σ => fmerge (σ limtdId)⟩,
     ⟨owId, fun σ => faddw (σ retId) (σ mergeId)⟩,
     ⟨dcopyId, fun σ => σ owId⟩] ++
    ((wins.map Prod.fst).map fun wr => ⟨dcopyId, fun σ => fdrawBox wr (σ dcopyId)⟩)
   else [])

theorem addRectRow_get (r : Rect) (s : ℚ) (y : ℕ) :
    ∀ (row : List ℚ) (x0 x : ℕ), x < row.length →
      (addRectRow r s y x0 row).get? x =
        some ((row.get? x).getD 0 + if coversB r y (x0 + x) then s else 0) := by
  intro row
  induction row with
  | nil => intro x0 x hx; simp at hx
  | cons v vs ih =>
    intro x0 x hx
    cases x with
    | zero =>
      simp [addRectRow]
      split <;> simp
    | succ n =>
      simp only [addRectRow, List.get?]
      have := ih (x0 + 1) n (by simpa using Nat.lt_of_succ_lt_succ hx)
      rw [this]
      have harith : x0 + 1 + n = x0 + (n + 1) := by omega
      rw [harith]

theorem addRectRow_length (r : Rect) (s : ℚ) (y : ℕ) :
    ∀ (row : List ℚ) (x0 : ℕ), (addRectRow r s y x0 row).length = row.length := by
  intro row
  induction row with
  | nil => intro x0; simp [addRectRow]
  | cons v vs ih => intro x0; simp [addRectRow, ih]

theorem addRectRows_length (r : Rect) (s : ℚ) :
    ∀ (g : HeatGrid) (y0 : ℕ), (addRectRows r s y0 g).length = g.length := by
  intro g
  induction g with
  | nil => intro y0; simp [addRectRows]
  | cons row rows ih => intro y0; simp [addRectRows, ih]

theorem addRectRows_get (r : Rect) (s : ℚ) :
    ∀ (g : HeatGrid) (y0 y : ℕ), y < g.length →
      (addRectRows r s y0 g).get? y = (g.get? y).map (addRectRow r s (y0 + y) 0) := by
  intro g
  induction g with
  | nil => intro y0 y hy; simp at hy
  | cons row rows ih =>
    intro y0 y hy
    cases y with
    | zero => simp [addRectRows]
    | succ n =>
      simp only [addRectRows, List.get?]
      have := ih (y0 + 1) n (by simpa using Nat.lt_of_succ_lt_succ hy)
      rw [this]
      have harith : y0 + 1 + n = y0 + (n + 1) := by omega
      rw [harith]

/-- Row lengths are preserved by `addRect`. -/
theorem addRect_row_length (g : HeatGrid) (r : Rect) (s : ℚ) (y : ℕ) (hy : y < g.length) :
    (((addRect g r s).get? y).getD []).length = ((g.get? y).getD []).length := by
  unfold addRect
  rw [addRectRows_get r s g 0 y hy]
  cases hrow : g.get? y with
  | none => simp
  | some row => simp [addRectRow_length]

theorem getQ_addRect (g : HeatGrid) (r : Rect) (s : ℚ) (y x : ℕ)
    (hy : y < g.length) (hx : x < ((g.get? y).getD []).length) :
    getQ (addRect g r s) y x = getQ g y x + if coversB r y x then s else 0 := by
  unfold getQ addRect
  rw [addRectRows_get r s g 0 y hy]
  cases hrow : g.get? y with
  | none =>
    exfalso
    rw [List.get?_eq_none] at hrow
    omega
  | some row =>
    have hx' : x < row.length := by rw [hrow] at hx; simpa using hx
    simp only [Nat.zero_add, Option.map_some', Option.getD_some]
    rw [addRectRow_get r s y row 0 x hx']
    simp

theorem shapeOk_zeros (h w : ℕ) : ShapeOk (zerosGrid h w) h w := by
  constructor
  · simp [zerosGrid]
  · intro y hy
    simp [zerosGrid, List.get?_eq_getElem?, List.getElem?_replicate, hy]

theorem shapeOk_addRect {g : HeatGrid} {h w : ℕ} (hs : ShapeOk g h w) (r : Rect) (s : ℚ) :
    ShapeOk (addRect g r s) h w := by
  obtain ⟨hl, hr⟩ := hs
  constructor
  · unfold addRect; rw [addRectRows_length]; exact hl
  · intro y hy
    rw [addRect_row_length g r s y (by omega)]
    exact hr y hy

theorem shapeOk_foldl {h w : ℕ} :
    ∀ (ps : List (Rect × ℚ)) (g : HeatGrid), ShapeOk g h w →
      ShapeOk (ps.foldl (fun g p => addRect g p.1 p.2) g) h w := by
  intro ps
  induction ps with
  | nil => intro g hg; simpa using hg
  | cons p t ih =>
    intro g hg
    simpa using ih (addRect g p.1 p.2) (shapeOk_addRect hg p.1 p.2)

theorem gen_heatmap_shape (ps : List (Rect × ℚ)) (h w : ℕ) :
    ShapeOk (gen_heatmap ps h w) h w :=
  shapeOk_foldl ps (zerosGrid h w) (shapeOk_zeros h w)

theorem getQ_zeros (h w y x : ℕ) : getQ (zerosGrid h w) y x = 0 := by
  unfold getQ zerosGrid
  rcases Nat.lt_or_ge y h with hy | hy
  · rcases Nat.lt_or_ge x w with hx | hx
    · simp [List.get?_eq_getElem?, List.getElem?_replicate, hy, hx]
    · simp [List.get?_eq_getElem?, List.getElem?_replicate, hy, Nat.not_lt.mpr hx]
  · simp [List.get?_eq_getElem?, List.getElem?_replicate, Nat.not_lt.mpr hy]

theorem coverSum_cons (p : Rect × ℚ) (t : List (Rect × ℚ)) (y x : ℕ) :
    coverSum (p :: t) y x = (if coversB p.1 y x then p.2 else 0) + coverSum t y x := by
  unfold coverSum
  by_cases hc : coversB p.1 y x
  · simp [List.filter, hc]
  · simp [List.filter, hc]

theorem getQ_foldl_add {h w : ℕ} (y x : ℕ) (hy : y < h) (hx : x < w) :
    ∀ (ps : List (Rect × ℚ)) (g : HeatGrid), ShapeOk g h w →
      getQ (ps.foldl (fun g p => addRect g p.1 p.2) g) y x = getQ g y x + coverSum ps y x := by
  intro ps
  induction ps with
  | nil => intro g hg; simp [coverSum]
  | cons p t ih =>
    intro g hg
    simp only [List.foldl_cons]
    rw [ih (addRect g p.1 p.2) (shapeOk_addRect hg p.1 p.2)]
    rw [getQ_addRect g p.1 p.2 y x (by rw [hg.1]; exact hy) (by rw [hg.2 y hy]; exact hx)]
    rw [coverSum_cons]
    ring

/-- The value of `gen_heatmap` at an in-bounds cell is the sum of the
scores of the rectangles covering it. -/
theorem getQ_gen_heatmap (ps : List (Rect × ℚ)) (h w y x : ℕ)
    (hy : y < h) (hx : x < w) :
    getQ (gen_heatmap ps h w) y x = coverSum ps y x := by
  unfold gen_heatmap
  rw [getQ_foldl_add y x hy hx ps (zerosGrid h w) (shapeOk_zeros h w), getQ_zeros]
  ring

theorem coverSum_eq_zero {t : List (Rect × ℚ)} {y x : ℕ}
    (h : ∀ q ∈ t, ¬coversB q.1 y x = true) : coverSum t y x = 0 := by
  unfold coverSum
  have : t.filter (fun p => coversB p.1 y x) = [] := by
    rw [List.filter_eq_nil]
    intro q hq
    simpa using h q hq
  rw [this]
  simp

theorem coverSum_eq_of_disjoint {y x : ℕ} :
    ∀ (ps : List (Rect × ℚ)), ps.Pairwise DisjointRects →
      ∀ p ∈ ps, coversB p.1 y x = true → coverSum ps y x = p.2 := by
  intro ps
  induction ps with
  | nil => intro _ p hp; simp at hp
  | cons q t ih =>
    intro hpw p hp hc
    rw [List.pairwise_cons] at hpw
    rw [coverSum_cons]
    rcases List.mem_cons.mp hp with hq | hmem
    · subst hq
      rw [if_pos hc, coverSum_eq_zero, add_zero]
      intro r hr hrc
      exact hpw.1 r hr y x ⟨hc, hrc⟩
    · have hqnc : ¬coversB q.1 y x = true := by
        intro hqc
        exact hpw.1 p hmem y x ⟨hqc, hc⟩
      rw [if_neg hqnc, zero_add]
      exact ih hpw.2 p hmem hc

/-- Pointwise grid maps evaluate pointwise at in-bounds cells. -/
theorem getQ_mapGrid (f : ℚ → ℚ) (g : HeatGrid) (y x : ℕ)
    (hy : y < g.length) (hx : x < ((g.get? y).getD []).length) :
    getQ (g.map (List.map f)) y x = f (getQ g y x) := by
  unfold getQ
  rw [List.get?_map]
  cases hrow : g.get? y with
  | none =>
    exfalso
    rw [List.get?_eq_none] at hrow
    omega
  | some row =>
    have hx' : x < row.length := by rw [hrow] at hx; simpa using hx
    simp only [Option.map_some', Option.getD_some]
    rw [List.get?_map]
    cases hcell : row.get? x with
    | none =>
      exfalso
      rw [List.get?_eq_none] at hcell
      omega
    | some v => simp

theorem coverSum_nil (y x : ℕ) : coverSum [] y x = 0 := by
  simp [coverSum]

/-- C6: the raw heatmap built by `gen_heatmap` holds, at every in-bounds
cell, the sum of the scores of the rectangles covering that cell; for
pairwise non-overlapping rectangles a covered cell holds exactly the
covering rectangle's score and an uncovered cell holds 0. -/
theorem C6_heatmap_additive (ps : List (Rect × ℚ)) (h w y x : ℕ)
    (hy : y < h) (hx : x < w) :
    getQ (gen_heatmap ps h w) y x = coverSum ps y x ∧
    (ps.Pairwise DisjointRects → ∀ p ∈ ps, coversB p.1 y x = true →
      getQ (gen_heatmap ps h w) y x = p.2) ∧
    ((∀ p ∈ ps, coversB p.1 y x = false) → getQ (gen_heatmap ps h w) y x = 0) := by
  refine ⟨getQ_gen_heatmap ps h w y x hy hx, ?_, ?_⟩
  · intro hpw p hp hc
    rw [getQ_gen_heatmap ps h w y x hy hx]
    exact coverSum_eq_of_disjoint ps hpw p hp hc
  · intro hnc
    rw [getQ_gen_heatmap ps h w y x hy hx]
    exact coverSum_eq_zero (fun q hq => by simp [hnc q hq])

theorem C6_heatmap_additive_witness :
    getQ (gen_heatmap [(((0, 0), (4, 4)), 2), (((5, 0), (7, 3)), 5)] 8 8) 1 2 = 2 ∧
    getQ (gen_heatmap [(((0, 0), (4, 4)), 2), (((5, 0), (7, 3)), 5)] 8 8) 1 6 = 5 ∧
    getQ (gen_heatmap [(((0, 0), (4, 4)), 2), (((5, 0), (7, 3)), 5)] 8 8) 1 4 = 0 := by
  have hd : List.Pairwise DisjointRects [(((0, 0), (4, 4)), (2 : ℚ)), (((5, 0), (7, 3)), 5)] := by
    refine List.Pairwise.cons ?_ (List.pairwise_singleton _ _)
    intro q hq y x hc
    rcases hc with ⟨h1, h2⟩
    rcases List.mem_singleton.mp hq with rfl
    simp [coversB] at h1 h2
    omega
  refine ⟨?_, ?_, ?_⟩
  · exact (C6_heatmap_additive _ 8 8 1 2 (by decide) (by decide)).2.1 hd
      (((0, 0), (4, 4)), 2) (by simp) (by decide)
  · exact (C6_heatmap_additive _ 8 8 1 6 (by decide) (by decide)).2.1 hd
      (((5, 0), (7, 3)), 5) (by simp) (by decide)
  · exact (C6_heatmap_additive _ 8 8 1 4 (by decide) (by decide)).2.2 (by decide)

/-- C10: `gen_heatmap` treats the bottom-right vertex as exclusive — the
interior cells `x0 ≤ x < x1`, `y0 ≤ y < y1` receive the score, while the
row `y1` and the column `x1` named by the Rectangle as bottom-right
receive nothing. -/
theorem C10_bottom_right_exclusive (x0 y0 x1 y1 : ℕ) (s : ℚ) (h w : ℕ)
    (hy1 : y1 < h) (hx1 : x1 < w) :
    (∀ y x, y0 ≤ y → y < y1 → x0 ≤ x → x < x1 →
      getQ (gen_heatmap [(((x0, y0), (x1, y1)), s)] h w) y x = s) ∧
    (∀ y, y < h → getQ (gen_heatmap [(((x0, y0), (x1, y1)), s)] h w) y x1 = 0) ∧
    (∀ x, x < w → getQ (gen_heatmap [(((x0, y0), (x1, y1)), s)] h w) y1 x = 0) := by
  refine ⟨?_, ?_, ?_⟩
  · intro y x h1 h2 h3 h4
    rw [getQ_gen_heatmap _ h w y x (by omega) (by omega), coverSum_cons, coverSum_nil]
    have hc : coversB ((x0, y0), (x1, y1)) y x = true := by
      simp [coversB]
      omega
    rw [if_pos hc]
    ring
  · intro y hy
    rw [getQ_gen_heatmap _ h w y x1 (by omega) hx1, coverSum_cons, coverSum_nil]
    have hc : coversB ((x0, y0), (x1, y1)) y x1 = false := by
      simp [coversB]
    rw [if_neg (by simp [hc])]
    ring
  · intro x hx
    rw [getQ_gen_heatmap _ h w y1 x (by omega) (by omega), coverSum_cons, coverSum_nil]
    have hc : coversB ((x0, y0), (x1, y1)) y1 x = false := by
      simp [coversB]
    rw [if_neg (by simp [hc])]
    ring

theorem C10_bottom_right_exclusive_witness :
    getQ (gen_heatmap [(((1, 1), (3, 3)), 5)] 4 4) 2 2 = 5 ∧
    getQ (gen_heatmap [(((1, 1), (3, 3)), 5)] 4 4) 2 3 = 0 ∧
    getQ (gen_heatmap [(((1, 1), (3, 3)), 5)] 4 4) 3 2 = 0 := by
  have h := C10_bottom_right_exclusive 1 1 3 3 5 4 4 (by decide) (by decide)
  exact ⟨h.1 2 2 (by decide) (by decide) (by decide) (by decide),
    h.2.1 2 (by decide), h.2.2 2 (by decide)⟩

/-- C5: after the per-frame cap no in-bounds cell exceeds the configured
maximum, even when the raw additive sum is larger, and every cell at or
below the cap is unchanged. -/
theorem C5_per_frame_cap (ps : List (Rect × ℚ)) (h w : ℕ) (m : ℚ) (y x : ℕ)
    (hy : y < h) (hx : x < w) :
    getQ (capGrid (gen_heatmap ps h w) m) y x ≤ m ∧
    (getQ (gen_heatmap ps h w) y x ≤ m →
      getQ (capGrid (gen_heatmap ps h w) m) y x = getQ (gen_heatmap ps h w) y x) := by
  have hs := gen_heatmap_shape ps h w
  have hmap := getQ_mapGrid (fun v => if m < v then m else v) (gen_heatmap ps h w) y x
    (by rw [hs.1]; exact hy) (by rw [hs.2 y hy]; exact hx)
  unfold capGrid
  rw [hmap]
  dsimp only
  constructor
  · split
    · exact le_refl m
    · exact le_of_not_lt (by assumption)
  · intro hle
    rw [if_neg (not_lt.mpr hle)]

theorem C5_per_frame_cap_witness :
    getQ (capGrid (gen_heatmap [(((0, 0), (2, 2)), 3), (((0, 0), (2, 2)), 4)] 3 3) 5) 0 0 ≤ 5 ∧
    getQ (capGrid (gen_heatmap [(((0, 0), (2, 2)), 3), (((0, 0), (2, 2)), 4)] 3 3) 5) 2 2 =
      getQ (gen_heatmap [(((0, 0), (2, 2)), 3), (((0, 0), (2, 2)), 4)] 3 3) 2 2 := by
  refine ⟨(C5_per_frame_cap _ 3 3 5 0 0 (by decide) (by decide)).1, ?_⟩
  exact (C5_per_frame_cap _ 3 3 5 2 2 (by decide) (by decide)).2 (by decide)

theorem histStep_takeLast (cap : ℤ) (hcap : 1 ≤ cap) (hist : List HeatGrid) (x : HeatGrid) :
    histStep cap hist x = takeLast cap.toNat (hist ++ [x]) := by
  unfold histStep takeLast pySliceFrom
  by_cases hgt : ((hist ++ [x]).length : ℤ) > cap
  · rw [if_pos hgt, if_pos (by omega)]
    congr 1
    omega
  · rw [if_neg hgt]
    have h0 : (hist ++ [x]).length - cap.toNat = 0 := by
      push_neg at hgt
      omega
    rw [h0, List.drop_zero]

theorem takeLast_append_one {α : Type} (k : ℕ) (hk : 1 ≤ k) (l : List α) (x : α) :
    takeLast k (takeLast k l ++ [x]) = takeLast k (l ++ [x]) := by
  unfold takeLast
  rcases Nat.lt_or_ge l.length k with hlt | hge
  · have h0 : l.length - k = 0 := by omega
    rw [h0, List.drop_zero]
  · have hlen : (l.drop (l.length - k)).length = k := by
      rw [List.length_drop]
      omega
    have hL1 : (l.drop (l.length - k) ++ [x]).length = k + 1 := by
      simp [hlen]
    have hL2 : (l ++ [x]).length = l.length + 1 := by
      simp
    rw [hL1, hL2]
    have h1 : k + 1 - k = 1 := by omega
    have h2 : l.length + 1 - k = (l.length - k) + 1 := by omega
    rw [h1, h2]
    rw [List.drop_append_of_le_length
      (show 1 ≤ (l.drop (l.length - k)).length by rw [hlen]; omega)]
    rw [List.drop_append_of_le_length (show l.length - k + 1 ≤ l.length by omega)]
    rw [List.drop_drop]

theorem foldl_histStep (cap : ℤ) (hcap : 1 ≤ cap) :
    ∀ (xs : List HeatGrid) (a : List HeatGrid),
      xs.foldl (histStep cap) (takeLast cap.toNat a) = takeLast cap.toNat (a ++ xs) := by
  intro xs
  induction xs with
  | nil => intro a; simp
  | cons x t ih =>
    intro a
    simp only [List.foldl_cons]
    rw [histStep_takeLast cap hcap, takeLast_append_one cap.toNat (by omega) a x]
    have h := ih (a ++ [x])
    rw [h]
    congr 1
    simp

/-- C4: starting from the empty history a fresh `CarFinder` carries,
after more streaming-mode frames than the capacity the history holds
exactly the capacity's worth of heatmaps, namely the most recent frames
in arrival order (FIFO). -/
theorem C4_history_fifo (visualization : String) (tl th : ℚ) (cap : ℤ) (xs : List HeatGrid)
    (hcap : 1 ≤ cap) (hlen : cap.toNat < xs.length) :
    xs.foldl (histStep cap) ((carFinderInit visualization cap tl th).nlastHeatmaps) =
      xs.drop (xs.length - cap.toNat) ∧
    (xs.foldl (histStep cap) ((carFinderInit visualization cap tl th).nlastHeatmaps)).length =
      cap.toNat := by
  have h0 : (carFinderInit visualization cap tl th).nlastHeatmaps =
      takeLast cap.toNat ([] : List HeatGrid) := by
    simp [carFinderInit, takeLast]
  rw [h0, foldl_histStep cap hcap xs []]
  constructor
  · simp [takeLast]
  · simp [takeLast, List.length_drop]
    omega

theorem C4_history_fifo_witness :
    ([[[1]], [[2]], [[3]]] : List HeatGrid).foldl (histStep 2)
        ((carFinderInit "cars" 2 (1/10) (1/4)).nlastHeatmaps) = [[[2]], [[3]]] ∧
    (([[[1]], [[2]], [[3]]] : List HeatGrid).foldl (histStep 2)
        ((carFinderInit "cars" 2 (1/10) (1/4)).nlastHeatmaps)).length = 2 := by
  have h := C4_history_fifo "cars" (1/10) (1/4) 2 [[[1]], [[2]], [[3]]] (by decide) (by decide)
  exact ⟨by rw [h.1]; rfl, h.2⟩

/-- C1 (code_bug evidence): on a freshly constructed CarFinder processing
a still image (`single = True`), the history is left untouched and empty,
exactly one heatmap (the frame's own) makes up the fusion, yet both
effective thresholds are scaled by `len(nlast_heatmaps) = 0` and so are
0, not `1 × thresh_low = 1/10` and `1 × thresh_high = 1/4` as specified. -/
theorem C1_single_mode_thresholds_zero :
    fuseStep (carFinderInit "cars" 16 (1/10) (1/4)) [[1]] true 1 1 = ([], [[1]], 0, 0) ∧
    (1 : ℚ) * (1/10) ≠ 0 ∧ (1 : ℚ) * (1/4) ≠ 0 := by
  refine ⟨?_, by norm_num, by norm_num⟩
  show ([], [[1]], ((List.length ([] : List HeatGrid) : ℚ) * (1/10),
    (List.length ([] : List HeatGrid) : ℚ) * (1/4))) = ([], [[1]], 0, 0)
  norm_num

/-- C1 (streaming part, for contrast): in streaming mode the effective
thresholds returned by the fusion step are the post-update history
length times the configured fractional thresholds, and the post-update
history is exactly the list the fused heatmap sums over. -/
theorem C1_streaming_thresholds_scale (s : CFState) (current : HeatGrid) (h w : ℕ) :
    (fuseStep s current false h w).2.2.1 =
      ((fuseStep s current false h w).1.length : ℚ) * s.threshLow ∧
    (fuseStep s current false h w).2.2.2 =
      ((fuseStep s current false h w).1.length : ℚ) * s.threshHigh ∧
    (fuseStep s current false h w).2.1 = sumGrids h w (fuseStep s current false h w).1 := by
  exact ⟨rfl, rfl, rfl⟩

/-- C7 counterexample: constructing a CarFinder with history capacity 0
(malformed per the spec) succeeds: `__init__` runs no check, returns a
fully-formed state storing the malformed capacity, and nothing fails
until later `find_cars` calls.  `specConfigOk` is the spec's validity
condition, false for this configuration. -/
theorem C7_counterexample :
    (carFinderInit "cars" 0 (1/10) (1/4)).heatmapHistory = 0 ∧
    (carFinderInit "cars" 0 (1/10) (1/4)).nlastHeatmaps = [] ∧
    specConfigOk (carFinderInit "cars" 0 (1/10) (1/4)).heatmapHistory
      (carFinderInit "cars" 0 (1/10) (1/4)).searchSettings = false := by
  refine ⟨rfl, rfl, ?_⟩
  decide

/-- C7 amended: `CarFinder.__init__` performs no validation at all — for
every configuration, malformed ones included, it returns a state storing
the inputs as given (plus the hard-coded search tuples, x-range and the
`thresh_high * 1.5` frame cap), so misconfiguration surfaces only in
later per-frame calls. -/
theorem C7_no_construction_validation (visualization : String) (history : ℤ) (tl th : ℚ) :
    (carFinderInit visualization history tl th).heatmapHistory = history ∧
    (carFinderInit visualization history tl th).threshLow = tl ∧
    (carFinderInit visualization history tl th).threshHigh = th ∧
    (carFinderInit visualization history tl th).maxFrameHeat = th * (3/2) ∧
    (carFinderInit visualization history tl th).nlastHeatmaps = [] ∧
    (carFinderInit visualization history tl th).viz = visualization ∧
    (carFinderInit visualization history tl th).searchSettings =
      [(380, 500, 1, 6/8), (380, 550, 13/10, 5/8), (380, 600, 11/5, 6/8)] := by
  exact ⟨rfl, rfl, rfl, rfl, rfl, rfl, rfl⟩

/-- C3 counterexample: with the code's 8 cells per window (64-pixel
window, 8-pixel cells, 2 cells per block, hence 7 blocks per window) and
a requested overlap of 0.9, the code's step `int((1 - 0.9) * 8)` is 0
and the sliding-window loop's floor division fails (ZeroDivisionError),
while the spec's rule `max 1 (round((1 - overlap) * blocks_per_window))`
gives step 1 and a running loop. -/
theorem C3_counterexample :
    cellsPerWindowStep (9/10) ((cellsPerWindowEdge 64 8 : ℕ) : ℤ) = 0 ∧
    stepRangeLen 100 (blocksPerWindowEdge 8 2)
      (cellsPerWindowStep (9/10) ((cellsPerWindowEdge 64 8 : ℕ) : ℤ)) = none ∧
    specWindowStep (9/10) (blocksPerWindowEdge 8 2) = 1 := by
  have hstep : cellsPerWindowStep (9/10) ((cellsPerWindowEdge 64 8 : ℕ) : ℤ) = 0 := by
    show pyInt ((1 - 9/10) * ((8 : ℕ) : ℚ)) = 0
    norm_num [pyInt]
  refine ⟨hstep, ?_, ?_⟩
  · rw [hstep]
    rfl
  · show max 1 (round ((1 - 9/10) * ((7 : ℤ) : ℚ))) = 1
    norm_num [round_eq]

/-- C3 amended: the step between adjacent windows is
`int((1 - overlap) * cells_per_window_edge)` — truncation, measured in
cells per window rather than blocks per window — with no lower clamp: it
is ≥ 1 exactly when `(1 - overlap) * cells_per_window_edge ≥ 1`, and
when it is 0 the sliding-window loop's floor division fails instead of
being treated as a request for step 1. -/
theorem C3_step_truncation_no_clamp (overlap : ℚ) (cpwe : ℤ)
    (h0 : 0 ≤ overlap) (h1 : overlap < 1) (hc : 0 < cpwe) :
    cellsPerWindowStep overlap cpwe = ⌊(1 - overlap) * (cpwe : ℚ)⌋ ∧
    (1 ≤ cellsPerWindowStep overlap cpwe ↔ 1 ≤ (1 - overlap) * (cpwe : ℚ)) ∧
    (∀ nb bpwe : ℤ, cellsPerWindowStep overlap cpwe = 0 →
      stepRangeLen nb bpwe (cellsPerWindowStep overlap cpwe) = none) ∧
    (∀ nb bpwe : ℤ, cellsPerWindowStep overlap cpwe ≠ 0 →
      stepRangeLen nb bpwe (cellsPerWindowStep overlap cpwe) =
        some (Int.fdiv (nb - bpwe) (cellsPerWindowStep overlap cpwe))) := by
  have hnn : 0 ≤ (1 - overlap) * (cpwe : ℚ) := by
    apply mul_nonneg
    · linarith
    · exact_mod_cast le_of_lt hc
  have hfl : cellsPerWindowStep overlap cpwe = ⌊(1 - overlap) * (cpwe : ℚ)⌋ := by
    unfold cellsPerWindowStep pyInt
    rw [if_pos hnn]
  refine ⟨hfl, ?_, ?_, ?_⟩
  · rw [hfl]
    constructor
    · intro hge
      calc (1 : ℚ) = ((1 : ℤ) : ℚ) := by norm_num
      _ ≤ ((⌊(1 - overlap) * (cpwe : ℚ)⌋ : ℤ) : ℚ) := by exact_mod_cast hge
      _ ≤ (1 - overlap) * (cpwe : ℚ) := Int.floor_le _
    · intro hge
      exact Int.le_floor.mpr (by exact_mod_cast hge)
  · intro nb bpwe hz
    rw [hz]
    rfl
  · intro nb bpwe hz
    unfold stepRangeLen
    rw [if_neg hz]

theorem C3_step_truncation_no_clamp_witness :
    cellsPerWindowStep (6/8) 8 = 2 ∧
    stepRangeLen 100 7 (cellsPerWindowStep (6/8) 8) = some (Int.fdiv 93 2) := by
  have h := C3_step_truncation_no_clamp (6/8) 8 (by norm_num) (by norm_num) (by norm_num)
  have hstep : cellsPerWindowStep (6/8) 8 = 2 := by
    rw [h.1]
    norm_num [Int.floor_eq_iff]
  refine ⟨hstep, ?_⟩
  rw [h.2.2.2 100 7 (by rw [hstep]; decide), hstep]
  decide

/-- C8: the visualization setting changes only the returned image — the
detection bounding boxes and the post-frame heatmap history of a
`find_cars` call are identical between the diagnostic `windows` mode and
any other mode. -/
theorem C8_viz_mode_no_detection_effect (s : CFState) (wins : List (Rect × ℚ)) (h w : ℕ)
    (single : Bool) (labelOf : HeatGrid → List (List ℕ) × ℕ) (v : String) :
    (find_cars { s with viz := "windows" } wins h w single labelOf).map
        (fun r => (r.1.nlastHeatmaps, r.2.1)) =
      (find_cars { s with viz := v } wins h w single labelOf).map
        (fun r => (r.1.nlastHeatmaps, r.2.1)) := by
  unfold find_cars
  rw [show findCarsCore { s with viz := "windows" } wins h w single labelOf =
      findCarsCore s wins h w single labelOf from rfl]
  rw [show findCarsCore { s with viz := v } wins h w single labelOf =
      findCarsCore s wins h w single labelOf from rfl]
  cases findCarsCore s wins h w single labelOf with
  | none => rfl
  | some r => rfl

theorem hotLabelLoop_eq (lab : List (List ℕ)) (heat : HeatGrid) (thr : ℚ) :
    ∀ ids : List ℕ, (∀ id ∈ ids, labelPixels lab id ≠ []) →
      hotLabelLoop lab heat thr ids =
        some ((ids.filter (fun id =>
            decide (thr ≤ getQ heat (midY (bboxOfPixels (labelPixels lab id)))
              (midX (bboxOfPixels (labelPixels lab id)))))).map
          (fun id => bboxOfPixels (labelPixels lab id))) := by
  intro ids
  induction ids with
  | nil => intro _; rfl
  | cons id t ih =>
    intro hne
    have hid := hne id (by simp)
    have ht : ∀ i ∈ t, labelPixels lab i ≠ [] := fun i hi => hne i (by simp [hi])
    unfold hotLabelLoop
    rw [if_neg hid, ih ht]
    by_cases hthr : thr ≤ getQ heat (midY (bboxOfPixels (labelPixels lab id)))
        (midX (bboxOfPixels (labelPixels lab id)))
    · simp [List.filter_cons, hthr]
    · simp [List.filter_cons, hthr]

/-- C2 amended: a labelled component's bounding box is kept if and only
if the THRESHOLDED heatmap's value at the integer-truncated midpoint of
the box is ≥ the high threshold — `find_cars` passes `heatmap_thresh`,
not the original fused heatmap, to `hot_label_regions` (the two agree
whenever thresh_high ≥ thresh_low ≥ 0, as in the default
configuration). -/
theorem C2_keep_iff_thresholded_core (fused : HeatGrid) (lowT highT : ℚ)
    (lab : List (List ℕ)) (n : ℕ)
    (hne : ∀ id ∈ List.range' 1 n, labelPixels lab id ≠ []) :
    regionStep fused lowT highT lab n =
      some (((List.range' 1 n).filter (fun id =>
          decide (highT ≤ getQ (threshGrid fused lowT)
            (midY (bboxOfPixels (labelPixels lab id)))
            (midX (bboxOfPixels (labelPixels lab id)))))).map
        (fun id => bboxOfPixels (labelPixels lab id))) := by
  unfold regionStep hot_label_regions
  exact hotLabelLoop_eq lab (threshGrid fused lowT) highT (List.range' 1 n) hne

theorem C2_keep_iff_thresholded_core_witness :
    regionStep [[3]] 0 2 [[1]] 1 = some [((0, 0), (0, 0))] := by
  rw [C2_keep_iff_thresholded_core [[3]] 0 2 [[1]] 1 (by decide)]
  rfl

/-- C2 counterexample: a ring-shaped labelled component of the
thresholded heatmap (low threshold 5 zeroes the centre cell of value 3)
whose bounding-box midpoint falls on the zeroed centre.  The original
fused heatmap's value there is 3 ≥ high threshold 2, so the claim says
the box is kept — but the code consults the thresholded heatmap, reads
0 < 2, and drops it.  `consistentLabeling` certifies the label grid is
the (unique) 4-connectivity component labelling of the thresholded
heatmap. -/
theorem C2_counterexample :
    regionStep [[6, 6, 6], [6, 3, 6], [6, 6, 6]] 5 2
        [[1, 1, 1], [1, 0, 1], [1, 1, 1]] 1 = some [] ∧
    getQ [[6, 6, 6], [6, 3, 6], [6, 6, 6]]
      (midY (bboxOfPixels (labelPixels [[1, 1, 1], [1, 0, 1], [1, 1, 1]] 1)))
      (midX (bboxOfPixels (labelPixels [[1, 1, 1], [1, 0, 1], [1, 1, 1]] 1))) = 3 ∧
    (2 : ℚ) ≤ 3 ∧
    threshGrid [[6, 6, 6], [6, 3, 6], [6, 6, 6]] 5 = [[6, 6, 6], [6, 0, 6], [6, 6, 6]] ∧
    consistentLabeling (threshGrid [[6, 6, 6], [6, 3, 6], [6, 6, 6]] 5)
      [[1, 1, 1], [1, 0, 1], [1, 1, 1]] 1 3 3 = true := by
  refine ⟨?_, ?_, by norm_num, ?_, ?_⟩
  · rfl
  · rfl
  · rfl
  · decide

theorem execOps_preserves_zero :
    ∀ (ops : List MOp) (σ : ℕ → BufData), (∀ op ∈ ops, op.dst ≠ 0) → execOps σ ops 0 = σ 0 := by
  intro ops
  induction ops with
  | nil => intro σ _; rfl
  | cons op t ih =>
    intro σ hops
    have h1 : execOps σ (op :: t) = execOps (Function.update σ op.dst (op.f σ)) t := rfl
    rw [h1, ih _ (fun o ho => hops o (by simp [ho]))]
    exact Function.update_noteq (Ne.symm (hops op (by simp))) (op.f σ) σ

theorem wsOps_dst_ne_zero (b : ℕ) (hb : 1 ≤ b) (y0 x0 : ℕ) (dr : Bool) (nw : ℕ)
    (fresize fhog : BufData → BufData) (fslice fpatch : ℕ → BufData → BufData)
    (ffeat : (ℕ → BufData) → BufData) (fscore : BufData → BufData) :
    ∀ op ∈ wsOps b y0 x0 dr nw fresize fhog fslice fpatch ffeat fscore, op.dst ≠ 0 := by
  intro op hop
  unfold wsOps at hop
  rcases List.mem_append.mp hop with hop1 | hlast
  · rcases List.mem_append.mp hop1 with hop2 | hwin
    · rcases List.mem_append.mp hop2 with hop3 | hhog
      · rcases List.mem_append.mp hop3 with hcrop | hres
        · have heq := List.mem_singleton.mp hcrop
          subst heq
          show b ≠ 0
          omega
        · cases dr
          · simp at hres
          · have heq := List.mem_singleton.mp (by simpa using hres)
            subst heq
            show b + 1 ≠ 0
            omega
      · have heq := List.mem_singleton.mp hhog
        subst heq
        show b + 2 ≠ 0
        omega
    · rcases List.mem_bind.mp hwin with ⟨i, hi, hopin⟩
      rcases List.mem_cons.mp hopin with heq | hopin2
      · subst heq
        show b + 3 + 2 * i ≠ 0
        omega
      · have heq := List.mem_singleton.mp hopin2
        subst heq
        show b + 4 + 2 * i ≠ 0
        omega
  · rcases List.mem_cons.mp hlast with heq | hlast2
    · subst heq
      show b + 3 + 2 * nw ≠ 0
      omega
    · have heq := List.mem_singleton.mp hlast2
      subst heq
      show b + 4 + 2 * nw ≠ 0
      omega

theorem findCarsOps_dst_ne_zero (nw1 nw2 nw3 : ℕ) (histIds : List ℕ)
    (wins : List (Rect × ℚ)) (bboxes : List Rect) (single vizWindows : Bool)
    (m lowT highT : ℚ) (fresize fhog : BufData → BufData)
    (fslice fpatch : ℕ → BufData → BufData) (ffeat : (ℕ → BufData) → BufData)
    (fscore flabel : BufData → BufData) (fdrawBox : Rect → BufData → BufData)
    (fnorm fmerge : BufData → BufData) (faddw : BufData → BufData → BufData) :
    ∀ op ∈ findCarsOps nw1 nw2 nw3 histIds wins bboxes single vizWindows m lowT highT
      fresize fhog fslice fpatch ffeat fscore flabel fdrawBox fnorm fmerge faddw,
      op.dst ≠ 0 := by
  intro op hop
  unfold findCarsOps at hop
  rcases List.mem_append.mp hop with h1 | hviz
  · rcases List.mem_append.mp h1 with h2 | hdraw
    · rcases List.mem_append.mp h2 with h3 | hmain
      · rcases List.mem_append.mp h3 with h4 | hsum
        · rcases List.mem_append.mp h4 with h5 | hcap
          · rcases List.mem_append.mp h5 with h6 | hadds
            · rcases List.mem_append.mp h6 with h7 | hzero
              · rcases List.mem_append.mp h7 with h8 | hws3
                · rcases List.mem_append.mp h8 with hws1 | hws2
                  · exact wsOps_dst_ne_zero 1 (by omega) 380 0 false nw1
                      fresize fhog fslice fpatch ffeat fscore op hws1
                  · exact wsOps_dst_ne_zero (1 + 5 + 2 * nw1) (by omega) 380 0 true nw2
                      fresize fhog fslice fpatch ffeat fscore op hws2
                · exact wsOps_dst_ne_zero (1 + 5 + 2 * nw1 + 5 + 2 * nw2) (by omega) 380 0
                    true nw3 fresize fhog fslice fpatch ffeat fscore op hws3
              · have heq := List.mem_singleton.mp hzero
                subst heq
                show 1 + 5 + 2 * nw1 + 5 + 2 * nw2 + 5 + 2 * nw3 ≠ 0
                omega
            · rcases List.mem_map.mp hadds with ⟨p, hp, heq⟩
              subst heq
              show 1 + 5 + 2 * nw1 + 5 + 2 * nw2 + 5 + 2 * nw3 ≠ 0
              omega
          · have heq := List.mem_singleton.mp hcap
            subst heq
            show 1 + 5 + 2 * nw1 + 5 + 2 * nw2 + 5 + 2 * nw3 ≠ 0
            omega
        · cases single
          · have heq := List.mem_singleton.mp (by simpa using hsum)
            subst heq
            show 1 + 5 + 2 * nw1 + 5 + 2 * nw2 + 5 + 2 * nw3 + 1 ≠ 0
            omega
          · simp at hsum
      · rcases List.mem_cons.mp hmain with heq | hmain2
        · subst heq
          show 1 + 5 + 2 * nw1 + 5 + 2 * nw2 + 5 + 2 * nw3 + 2 ≠ 0
          omega
        · rcases List.mem_cons.mp hmain2 with heq | hmain3
          · subst heq
            show 1 + 5 + 2 * nw1 + 5 + 2 * nw2 + 5 + 2 * nw3 + 2 ≠ 0
            omega
          · rcases List.mem_cons.mp hmain3 with heq | hmain4
            · subst heq
              show 1 + 5 + 2 * nw1 + 5 + 2 * nw2 + 5 + 2 * nw3 + 3 ≠ 0
              omega
            · have heq := List.mem_singleton.mp hmain4
              subst heq
              show 1 + 5 + 2 * nw1 + 5 + 2 * nw2 + 5 + 2 * nw3 + 4 ≠ 0
              omega
    · rcases List.mem_map.mp hdraw with ⟨bb, hbb, heq⟩
      subst heq
      show 1 + 5 + 2 * nw1 + 5 + 2 * nw2 + 5 + 2 * nw3 + 4 ≠ 0
      omega
  · cases vizWindows
    · simp at hviz
    · rw [if_pos rfl] at hviz
      rcases List.mem_append.mp hviz with hv1 | hv2
      · rcases List.mem_cons.mp hv1 with heq | hv3
        · subst heq
          show 1 + 5 + 2 * nw1 + 5 + 2 * nw2 + 5 + 2 * nw3 + 5 ≠ 0
          omega
        · rcases List.mem_cons.mp hv3 with heq | hv4
          · subst heq
            show 1 + 5 + 2 * nw1 + 5 + 2 * nw2 + 5 + 2 * nw3 + 5 ≠ 0
            omega
          · rcases List.mem_cons.mp hv4 with heq | hv5
            · subst heq
              show 1 + 5 + 2 * nw1 + 5 + 2 * nw2 + 5 + 2 * nw3 + 5 ≠ 0
              omega
            · rcases List.mem_cons.mp hv5 with heq | hv6
              · subst heq
                show 1 + 5 + 2 * nw1 + 5 + 2 * nw2 + 5 + 2 * nw3 + 6 ≠ 0
                omega
              · rcases List.mem_cons.mp hv6 with heq | hv7
                · subst heq
                  show 1 + 5 + 2 * nw1 + 5 + 2 * nw2 + 5 + 2 * nw3 + 7 ≠ 0
                  omega
                · have heq := List.mem_singleton.mp hv7
                  subst heq
                  show 1 + 5 + 2 * nw1 + 5 + 2 * nw2 + 5 + 2 * nw3 + 8 ≠ 0
                  omega
      · rcases List.mem_map.mp hv2 with ⟨wr, hwr, heq⟩
        subst heq
        show 1 + 5 + 2 * nw1 + 5 + 2 * nw2 + 5 + 2 * nw3 + 8 ≠ 0
        omega

/-- C9: the full buffer trace of a `find_cars` call (multi-scale window
search included) only ever writes buffers allocated inside the call —
whatever the external drawing, resizing, labelling and scoring functions
write into them — so the caller's frame, buffer 0, holds exactly the
same pixels after the call as before. -/
theorem C9_input_frame_unchanged (nw1 nw2 nw3 : ℕ) (histIds : List ℕ)
    (wins : List (Rect × ℚ)) (bboxes : List Rect) (single vizWindows : Bool)
    (m lowT highT : ℚ) (fresize fhog : BufData → BufData)
    (fslice fpatch : ℕ → BufData → BufData) (ffeat : (ℕ → BufData) → BufData)
    (fscore flabel : BufData → BufData) (fdrawBox : Rect → BufData → BufData)
    (fnorm fmerge : BufData → BufData) (faddw : BufData → BufData → BufData)
    (σ : ℕ → BufData) :
    execOps σ (findCarsOps nw1 nw2 nw3 histIds wins bboxes single vizWindows m lowT highT
      fresize fhog fslice fpatch ffeat fscore flabel fdrawBox fnorm fmerge faddw) 0 = σ 0 := by
  apply execOps_preserves_zero
  exact findCarsOps_dst_ne_zero nw1 nw2 nw3 histIds wins bboxes single vizWindows m lowT
    highT fresize fhog fslice fpatch ffeat fscore flabel fdrawBox fnorm fmerge faddw

end FindCars
